import Mathlib

/-!
Shallow embedding of the trailing-stop trading core:
profit_trailing.py (ProfitTrailing), trade_manager.py (TradeManager),
order_manager.py (OrderManager side effects) and binance_ws.py
(watchdog timing).  Prices, sizes and amounts are modelled as rationals.
Dictionary fields coming back from the venue are modelled by an explicit
field-value type, since the Python code routinely applies fallback
chains such as pos.get(a) or pos.get(b) and wraps float(...) in
try/except.
-/

namespace Trading

/-- Result of extracting one field from a venue record: the field can be
absent (or a falsy value such as None), a value that float(...) parses,
or a truthy string on which float(...) raises. -/
inductive FVal where
  | missing : FVal
  | num (q : ℚ) : FVal
  | str (s : String) : FVal
deriving DecidableEq, Repr

/-- Python truthiness of a field value: None is falsy, a number is falsy
exactly when it is zero, a string is falsy exactly when it is empty. -/
def fvalTruthy : FVal → Bool
  | .missing => false
  | .num q => decide (q ≠ 0)
  | .str s => decide (s ≠ "")

/-- Python expression a or b on two field values. -/
def fvalOr (a b : FVal) : FVal :=
  if fvalTruthy a then a else b

/-- Models float(v): parses a numeric value, raises (returns none) on a
missing value or a non-numeric string. -/
def parseFloat : FVal → Option ℚ
  | .missing => none
  | .num q => some q
  | .str _ => none

/-- Models float(v or 0) where a raised exception is NOT caught:
none means the exception propagates. -/
def parseFloatOrZero (v : FVal) : Option ℚ :=
  parseFloat (fvalOr v (.num 0))

/-- Models try: float(v or 0) except: 0.0 — the pattern used for sizes
throughout the source. -/
def sizeOrZeroFV (v : FVal) : ℚ :=
  (parseFloatOrZero v).getD 0

/-- Python expression a or b or d on optional strings, where an empty
string is falsy. -/
def strOr (a : Option String) (d : String) : String :=
  match a with
  | some s => if s = "" then d else s
  | none => d

/-- Association table with insertion-order semantics, modelling a Python
dict: insert overwrites in place, otherwise appends at the end. -/
def lookupTbl {α β : Type} [DecidableEq α] : List (α × β) → α → Option β
  | [], _ => none
  | (k, v) :: rest, k' => if k = k' then some v else lookupTbl rest k'

def insertTbl {α β : Type} [DecidableEq α] : List (α × β) → α → β → List (α × β)
  | [], k, v => [(k, v)]
  | (k', v') :: rest, k, v =>
      if k' = k then (k, v) :: rest else (k', v') :: insertTbl rest k v

/-- A raw position record as seen by ProfitTrailing, with the fields the
source reads: info.product_symbol, top-level symbol, info.entry_price,
top-level entryPrice, size, contracts, info.unrealized_pnl. -/
structure Position where
  infoProductSymbol : Option String
  topSymbol : Option String
  infoEntryPrice : FVal
  entryPrice : FVal
  size : FVal
  contracts : FVal
  infoUnrealizedPnl : FVal
deriving DecidableEq, Repr

/-- Symbol used in trailing keys: info.product_symbol or symbol or the
literal unknown (profit_trailing.py line 81). -/
def posSymbolOf (p : Position) : String :=
  strOr p.infoProductSymbol (strOr p.topSymbol "unknown")

/-- Entry value after the fallback chain info.entry_price or entryPrice. -/
def entryValOf (p : Position) : FVal :=
  fvalOr p.infoEntryPrice p.entryPrice

/-- Size value after the fallback chain size or contracts. -/
def sizeValOf (p : Position) : FVal :=
  fvalOr p.size p.contracts

/-- Identity key of a position.  The source formats the string
sym_entry_size from the fallback values; we keep the components
structurally, which preserves key equality up to string-rendering
collisions. -/
abbrev Key := Option String × FVal × FVal

def posKey (p : Position) : Key :=
  (some (posSymbolOf p), entryValOf p, sizeValOf p)

/-- The key the track loop uses for display and max-profit lookups
(profit_trailing.py lines 234 and 250): it reads info.product_symbol,
info.entry_price and size directly, WITHOUT the fallback chains. -/
def trackKey (p : Position) : Key :=
  (p.infoProductSymbol, p.infoEntryPrice, p.size)

abbrev QTable := List (Key × ℚ)

/-- Configuration surface used by the trailing engine. -/
structure Config where
  symbol : String
  fixedStopOffsetPercent : ℚ
deriving DecidableEq, Repr

/-- Mutable state of a ProfitTrailing instance that update_trailing_stop
reads and writes: the two per-identity tables and the take-profit flag. -/
structure PTState where
  positionMaxProfit : QTable
  positionTrailingStop : QTable
  takeProfitDetected : Bool
deriving DecidableEq, Repr

/-- Result quadruple of update_trailing_stop: the new state plus the
triple (trailing stop, profit fraction, rule) returned by the source. -/
structure UpdateResult where
  state : PTState
  trailingStop : Option ℚ
  profitPct : Option ℚ
  rule : Option String
deriving DecidableEq, Repr

/-- Embedding of ProfitTrailing.update_trailing_stop
(profit_trailing.py lines 80 to 111). -/
def update_trailing_stop (cfg : Config) (st : PTState) (pos : Position)
    (livePrice : ℚ) : UpdateResult :=
  let key := posKey pos
  match parseFloat (entryValOf pos) with
  | none => ⟨st, none, none, none⟩
  | some entry =>
    let size := sizeOrZeroFV (sizeValOf pos)
    if size = 0 then ⟨st, none, none, none⟩
    else
      let currentProfit := if 0 < size then livePrice - entry else entry - livePrice
      let prevMax := (lookupTbl st.positionMaxProfit key).getD 0
      let newMax := max prevMax currentProfit
      let st1 : PTState :=
        { st with positionMaxProfit := insertTbl st.positionMaxProfit key newMax }
      let chosen : ℚ × String :=
        if st1.takeProfitDetected ∧ 400 ≤ newMax then
          (if 0 < size then entry + newMax / 2 else entry - newMax / 2, "lock_50")
        else
          let defaultOffset := entry * (cfg.fixedStopOffsetPercent / 100)
          (if 0 < size then entry - defaultOffset else entry + defaultOffset, "fixed_stop")
      let st2 : PTState :=
        { st1 with positionTrailingStop := insertTbl st1.positionTrailingStop key chosen.1 }
      ⟨st2, some chosen.1, some (newMax / entry), some chosen.2⟩

/-- Signed current profit used by update_trailing_stop (line 96). -/
def signedProfit (entry size livePrice : ℚ) : ℚ :=
  if 0 < size then livePrice - entry else entry - livePrice

/-- Folding a sequence of update calls over the engine state. -/
def runUpdates (cfg : Config) (st : PTState) (events : List (Position × ℚ)) : PTState :=
  events.foldl (fun s e => (update_trailing_stop cfg s e.1 e.2).state) st

/-- The updated max favorable excursion a successful update computes
(line 98 of the source). -/
def newMaxOf (st : PTState) (pos : Position) (livePrice entry : ℚ) : ℚ :=
  max ((lookupTbl st.positionMaxProfit (posKey pos)).getD 0)
    (signedProfit entry (sizeOrZeroFV (sizeValOf pos)) livePrice)

/-- The fixed-percentage stop of lines 105 to 106: entry minus the
offset for a long, entry plus the offset for a short. -/
def fixedStopOf (cfg : Config) (entry size : ℚ) : ℚ :=
  if 0 < size then entry - entry * (cfg.fixedStopOffsetPercent / 100)
  else entry + entry * (cfg.fixedStopOffsetPercent / 100)

/-- Rule selection of lines 101 to 107: the pair of the new trailing
stop and the rule name. -/
def ruleChoice (cfg : Config) (flag : Bool) (entry size nm : ℚ) : ℚ × String :=
  if flag ∧ 400 ≤ nm then
    (if 0 < size then entry + nm / 2 else entry - nm / 2, "lock_50")
  else
    (fixedStopOf cfg entry size, "fixed_stop")

/-- Characterization of a successful update in terms of the helper
definitions above. -/
theorem update_trailing_stop_eq (cfg : Config) (st : PTState) (pos : Position)
    (livePrice entry : ℚ)
    (hentry : parseFloat (entryValOf pos) = some entry)
    (hsize : sizeOrZeroFV (sizeValOf pos) ≠ 0) :
    update_trailing_stop cfg st pos livePrice =
      ⟨⟨insertTbl st.positionMaxProfit (posKey pos) (newMaxOf st pos livePrice entry),
        insertTbl st.positionTrailingStop (posKey pos)
          (ruleChoice cfg st.takeProfitDetected entry (sizeOrZeroFV (sizeValOf pos))
            (newMaxOf st pos livePrice entry)).1,
        st.takeProfitDetected⟩,
       some (ruleChoice cfg st.takeProfitDetected entry (sizeOrZeroFV (sizeValOf pos))
          (newMaxOf st pos livePrice entry)).1,
       some (newMaxOf st pos livePrice entry / entry),
       some (ruleChoice cfg st.takeProfitDetected entry (sizeOrZeroFV (sizeValOf pos))
          (newMaxOf st pos livePrice entry)).2⟩ := by
  unfold update_trailing_stop newMaxOf ruleChoice fixedStopOf signedProfit
  rw [hentry]
  dsimp only
  rw [if_neg hsize]

/- Table lemmas. -/

theorem lookupTbl_insertTbl_self {α β : Type} [DecidableEq α]
    (t : List (α × β)) (k : α) (v : β) :
    lookupTbl (insertTbl t k v) k = some v := by
  induction t with
  | nil => simp [insertTbl, lookupTbl]
  | cons hd tl ih =>
    obtain ⟨k', v'⟩ := hd
    by_cases h : k' = k
    · subst h
      simp [insertTbl, lookupTbl]
    · simp [insertTbl, lookupTbl, h, ih]

theorem lookupTbl_insertTbl_ne {α β : Type} [DecidableEq α]
    (t : List (α × β)) (k k' : α) (v : β) (h : k ≠ k') :
    lookupTbl (insertTbl t k v) k' = lookupTbl t k' := by
  induction t with
  | nil => simp [insertTbl, lookupTbl, h]
  | cons hd tl ih =>
    obtain ⟨k₀, v₀⟩ := hd
    by_cases h₀ : k₀ = k
    · subst h₀
      simp [insertTbl, lookupTbl, h]
    · simp [insertTbl, lookupTbl, h₀, ih]

/-- Single update step never decreases the recorded max favorable
excursion of any key (missing keys read as zero). -/
theorem update_maxProfit_step_mono (cfg : Config) (st : PTState)
    (pos : Position) (livePrice : ℚ) (k : Key) :
    (lookupTbl st.positionMaxProfit k).getD 0 ≤
      (lookupTbl (update_trailing_stop cfg st pos livePrice).state.positionMaxProfit k).getD 0 := by
  unfold update_trailing_stop
  cases hp : parseFloat (entryValOf pos) with
  | none => simp
  | some entry =>
    by_cases hs : sizeOrZeroFV (sizeValOf pos) = 0
    · simp [hs]
    · simp only [hs, if_false]
      by_cases hk : posKey pos = k
      · subst hk
        simp only [lookupTbl_insertTbl_self, Option.getD_some]
        exact le_max_left _ _
      · rw [lookupTbl_insertTbl_ne _ _ _ _ hk]

/-- Claim C1, part of the statement: over a whole sequence of updates the
recorded value for any fixed key never decreases. -/
theorem runUpdates_maxProfit_mono (cfg : Config) (st : PTState)
    (events : List (Position × ℚ)) (k : Key) :
    (lookupTbl st.positionMaxProfit k).getD 0 ≤
      (lookupTbl (runUpdates cfg st events).positionMaxProfit k).getD 0 := by
  induction events generalizing st with
  | nil => simp [runUpdates]
  | cons e tl ih =>
    calc (lookupTbl st.positionMaxProfit k).getD 0
        ≤ (lookupTbl (update_trailing_stop cfg st e.1 e.2).state.positionMaxProfit k).getD 0 :=
          update_maxProfit_step_mono cfg st e.1 e.2 k
      _ ≤ _ := ih _

/-- A successful update stores exactly max of the previous record (or
zero) and the current signed profit under the identity key. -/
theorem update_maxProfit_stores (cfg : Config) (st : PTState)
    (pos : Position) (livePrice entry : ℚ)
    (hentry : parseFloat (entryValOf pos) = some entry)
    (hsize : sizeOrZeroFV (sizeValOf pos) ≠ 0) :
    lookupTbl (update_trailing_stop cfg st pos livePrice).state.positionMaxProfit (posKey pos) =
      some (max ((lookupTbl st.positionMaxProfit (posKey pos)).getD 0)
        (signedProfit entry (sizeOrZeroFV (sizeValOf pos)) livePrice)) := by
  unfold update_trailing_stop signedProfit
  simp only [hentry, hsize, if_false]
  simp [lookupTbl_insertTbl_self]

/-- C1: for every position identity and every sequence of update calls
with arbitrary live prices, the stored max favorable excursion for that
identity is monotonically non-decreasing, and each individual update
stores max of the previous recorded value (or zero) and the current
signed profit; the table entry is never reset by an update, so it can
only restart from zero under a different identity key. -/
theorem C1_maxFavorableExcursion_monotone (cfg : Config) (st : PTState)
    (events : List (Position × ℚ)) (k : Key)
    (pos : Position) (livePrice entry : ℚ)
    (hentry : parseFloat (entryValOf pos) = some entry)
    (hsize : sizeOrZeroFV (sizeValOf pos) ≠ 0) :
    (lookupTbl st.positionMaxProfit k).getD 0 ≤
      (lookupTbl (runUpdates cfg st events).positionMaxProfit k).getD 0 ∧
    lookupTbl (update_trailing_stop cfg st pos livePrice).state.positionMaxProfit (posKey pos) =
      some (max ((lookupTbl st.positionMaxProfit (posKey pos)).getD 0)
        (signedProfit entry (sizeOrZeroFV (sizeValOf pos)) livePrice)) :=
  ⟨runUpdates_maxProfit_mono cfg st events k,
   update_maxProfit_stores cfg st pos livePrice entry hentry hsize⟩

/-- Concrete sample objects reused by witnesses below. -/
def cfg0 : Config := ⟨"BTCUSD", 3/5⟩

def posLong0 : Position :=
  ⟨some "BTCUSD", none, .num 100, .missing, .num 1, .missing, .num 0⟩

def stEmpty : PTState := ⟨[], [], false⟩

/-- Witness for C1 at a concrete long position: entry 100, size 1, a
retracing price sequence 150 then 120, key previously absent. -/
theorem C1_witness :
    (lookupTbl stEmpty.positionMaxProfit (posKey posLong0)).getD 0 ≤
      (lookupTbl (runUpdates cfg0 stEmpty [(posLong0, 150), (posLong0, 120)]).positionMaxProfit
        (posKey posLong0)).getD 0 ∧
    lookupTbl (update_trailing_stop cfg0 stEmpty posLong0 150).state.positionMaxProfit
        (posKey posLong0) =
      some (max ((lookupTbl stEmpty.positionMaxProfit (posKey posLong0)).getD 0)
        (signedProfit 100 (sizeOrZeroFV (sizeValOf posLong0)) 150)) :=
  C1_maxFavorableExcursion_monotone cfg0 stEmpty [(posLong0, 150), (posLong0, 120)]
    (posKey posLong0) posLong0 150 100 (by decide) (by decide)

/-- A market-order request as issued by book_profit through
TradeManager.place_market_order. -/
structure OrderIntent where
  symbol : String
  side : String
  amount : ℚ
  timeInForce : String
  force : Bool
deriving DecidableEq, Repr

/-- Result of book_profit: the state after its internal update call, the
order request it issued (if any breach was detected), and its boolean
return.  The parameter placeRaises models the order placement raising:
the source catches it and returns false, but the request was issued. -/
structure BookResult where
  state : PTState
  issued : Option OrderIntent
  booked : Bool
deriving DecidableEq, Repr

/-- Embedding of ProfitTrailing.book_profit (profit_trailing.py lines
113 to 173).  The source duplicates the close logic in the lock_50 and
the fixed_stop branches; we keep that duplication. -/
def book_profit (cfg : Config) (placeRaises : Bool) (st : PTState)
    (pos : Position) (livePrice : ℚ) : BookResult :=
  let size := sizeOrZeroFV (sizeValOf pos)
  let r := update_trailing_stop cfg st pos livePrice
  match r.trailingStop with
  | none => ⟨r.state, none, false⟩
  | some trailingStop =>
    if r.rule = some "lock_50" then
      if 0 < size ∧ livePrice < trailingStop then
        ⟨r.state, some ⟨cfg.symbol, "sell", size, "ioc", true⟩, !placeRaises⟩
      else if size < 0 ∧ trailingStop < livePrice then
        ⟨r.state, some ⟨cfg.symbol, "buy", |size|, "ioc", true⟩, !placeRaises⟩
      else ⟨r.state, none, false⟩
    else
      if 0 < size ∧ livePrice < trailingStop then
        ⟨r.state, some ⟨cfg.symbol, "sell", size, "ioc", true⟩, !placeRaises⟩
      else if size < 0 ∧ trailingStop < livePrice then
        ⟨r.state, some ⟨cfg.symbol, "buy", |size|, "ioc", true⟩, !placeRaises⟩
      else ⟨r.state, none, false⟩
/-- C2: with the take-profit flag set and an updated max favorable
excursion of at least 400 absolute price units, update selects the
lock_50 rule and the trailing stop locks half of the excursion: entry
plus half for a long, entry minus half for a short. -/
theorem C2_lockHalf_rule (cfg : Config) (st : PTState) (pos : Position)
    (livePrice entry : ℚ)
    (hflag : st.takeProfitDetected = true)
    (hentry : parseFloat (entryValOf pos) = some entry)
    (hsize : sizeOrZeroFV (sizeValOf pos) ≠ 0)
    (hmax : 400 ≤ newMaxOf st pos livePrice entry) :
    (update_trailing_stop cfg st pos livePrice).trailingStop =
      some (if 0 < sizeOrZeroFV (sizeValOf pos) then
          entry + newMaxOf st pos livePrice entry / 2
        else
          entry - newMaxOf st pos livePrice entry / 2) ∧
    (update_trailing_stop cfg st pos livePrice).rule = some "lock_50" := by
  have hu := update_trailing_stop_eq cfg st pos livePrice entry hentry hsize
  have hrule : ruleChoice cfg st.takeProfitDetected entry (sizeOrZeroFV (sizeValOf pos))
      (newMaxOf st pos livePrice entry) =
      (if 0 < sizeOrZeroFV (sizeValOf pos) then
          entry + newMaxOf st pos livePrice entry / 2
        else
          entry - newMaxOf st pos livePrice entry / 2, "lock_50") := by
    unfold ruleChoice
    rw [if_pos ⟨hflag, hmax⟩]
  constructor
  · rw [hu]
    dsimp only
    rw [hrule]
  · rw [hu]
    dsimp only
    rw [hrule]

/-- State holding a previously recorded excursion of 450 for the sample
long position, with the take-profit flag set. -/
def st450 : PTState := ⟨[(posKey posLong0, 450)], [], true⟩

/-- Witness for C2: the example from the specification.  A long at entry
100 with a previously recorded excursion of 450 and a live price of 100
keeps the excursion at 450 and yields a trailing stop of 325. -/
theorem C2_witness :
    (update_trailing_stop cfg0 st450 posLong0 100).trailingStop = some 325 ∧
    (update_trailing_stop cfg0 st450 posLong0 100).rule = some "lock_50" := by
  have h := C2_lockHalf_rule cfg0 st450 posLong0 100 100
    (by decide) (by decide) (by decide)
    (by norm_num [newMaxOf, st450, signedProfit, sizeOrZeroFV, parseFloatOrZero,
      parseFloat, fvalOr, fvalTruthy, sizeValOf, posLong0, lookupTbl])
  refine ⟨?_, h.2⟩
  rw [h.1]
  norm_num [newMaxOf, st450, signedProfit, sizeOrZeroFV, parseFloatOrZero,
    parseFloat, fvalOr, fvalTruthy, sizeValOf, posLong0, lookupTbl, max_def]

/-- C3: when the take-profit flag is unset or the updated excursion is
below 400, update selects the fixed_stop rule whose trailing stop is a
fixed percentage offset from entry with no dependence on the live
price, and book_profit issues a forced ioc close exactly on breach: a
sell of the full size for a long when the live price is below the stop,
a buy of the absolute size for a short when the live price is above the
stop; its boolean return is true exactly when a breach order was issued
and placement did not raise. -/
theorem C3_fixedStop_rule (cfg : Config) (placeRaises : Bool) (st : PTState)
    (pos : Position) (livePrice entry : ℚ)
    (hentry : parseFloat (entryValOf pos) = some entry)
    (hsize : sizeOrZeroFV (sizeValOf pos) ≠ 0)
    (hcond : ¬ (st.takeProfitDetected = true ∧ 400 ≤ newMaxOf st pos livePrice entry)) :
    (update_trailing_stop cfg st pos livePrice).trailingStop =
      some (fixedStopOf cfg entry (sizeOrZeroFV (sizeValOf pos))) ∧
    (update_trailing_stop cfg st pos livePrice).rule = some "fixed_stop" ∧
    (book_profit cfg placeRaises st pos livePrice).issued =
      (if 0 < sizeOrZeroFV (sizeValOf pos) ∧
          livePrice < fixedStopOf cfg entry (sizeOrZeroFV (sizeValOf pos)) then
        some ⟨cfg.symbol, "sell", sizeOrZeroFV (sizeValOf pos), "ioc", true⟩
      else if sizeOrZeroFV (sizeValOf pos) < 0 ∧
          fixedStopOf cfg entry (sizeOrZeroFV (sizeValOf pos)) < livePrice then
        some ⟨cfg.symbol, "buy", |sizeOrZeroFV (sizeValOf pos)|, "ioc", true⟩
      else none) ∧
    ((book_profit cfg placeRaises st pos livePrice).booked = true ↔
      (((0 < sizeOrZeroFV (sizeValOf pos) ∧
          livePrice < fixedStopOf cfg entry (sizeOrZeroFV (sizeValOf pos))) ∨
        (sizeOrZeroFV (sizeValOf pos) < 0 ∧
          fixedStopOf cfg entry (sizeOrZeroFV (sizeValOf pos)) < livePrice)) ∧
        placeRaises = false)) := by
  have hu := update_trailing_stop_eq cfg st pos livePrice entry hentry hsize
  have hrule : ruleChoice cfg st.takeProfitDetected entry (sizeOrZeroFV (sizeValOf pos))
      (newMaxOf st pos livePrice entry) =
      (fixedStopOf cfg entry (sizeOrZeroFV (sizeValOf pos)), "fixed_stop") := by
    unfold ruleChoice
    rw [if_neg hcond]
  refine ⟨?_, ?_, ?_, ?_⟩
  · rw [hu]
    dsimp only
    rw [hrule]
  · rw [hu]
    dsimp only
    rw [hrule]
  · unfold book_profit
    rw [hu]
    dsimp only
    rw [hrule]
    simp only [Option.some.injEq]
    by_cases h1 : 0 < sizeOrZeroFV (sizeValOf pos) ∧
        livePrice < fixedStopOf cfg entry (sizeOrZeroFV (sizeValOf pos))
    · simp [h1]
    · by_cases h2 : sizeOrZeroFV (sizeValOf pos) < 0 ∧
          fixedStopOf cfg entry (sizeOrZeroFV (sizeValOf pos)) < livePrice
      · simp [h1, h2]
      · simp [h1, h2]
  · unfold book_profit
    rw [hu]
    dsimp only
    rw [hrule]
    by_cases h1 : 0 < sizeOrZeroFV (sizeValOf pos) ∧
        livePrice < fixedStopOf cfg entry (sizeOrZeroFV (sizeValOf pos))
    · simp [h1, Bool.not_eq_true']
    · by_cases h2 : sizeOrZeroFV (sizeValOf pos) < 0 ∧
          fixedStopOf cfg entry (sizeOrZeroFV (sizeValOf pos)) < livePrice
      · simp [h1, h2, Bool.not_eq_true']
      · simp [h1, h2]

/-- Witness for C3: the example from the specification.  Entry 100,
size 1, offset percent 0.6 gives a stop of 99.4 = 497/5; at live price
99 the breach close (sell 1, forced, ioc) is issued and booked. -/
theorem C3_witness :
    (update_trailing_stop cfg0 stEmpty posLong0 99).trailingStop = some (497/5) ∧
    (update_trailing_stop cfg0 stEmpty posLong0 99).rule = some "fixed_stop" ∧
    (book_profit cfg0 false stEmpty posLong0 99).issued =
      some ⟨"BTCUSD", "sell", 1, "ioc", true⟩ ∧
    (book_profit cfg0 false stEmpty posLong0 99).booked = true := by
  have h := C3_fixedStop_rule cfg0 false stEmpty posLong0 99 100
    (by decide) (by decide) (by decide)
  refine ⟨?_, h.2.1, ?_, ?_⟩
  · rw [h.1]
    norm_num [fixedStopOf, cfg0, sizeOrZeroFV, parseFloatOrZero, parseFloat,
      fvalOr, fvalTruthy, sizeValOf, posLong0]
  · rw [h.2.2.1]
    norm_num [fixedStopOf, cfg0, sizeOrZeroFV, parseFloatOrZero, parseFloat,
      fvalOr, fvalTruthy, sizeValOf, posLong0]
  · refine h.2.2.2.mpr ⟨Or.inl ⟨?_, ?_⟩, rfl⟩
    · norm_num [sizeOrZeroFV, parseFloatOrZero, parseFloat, fvalOr, fvalTruthy,
        sizeValOf, posLong0]
    · norm_num [fixedStopOf, cfg0, sizeOrZeroFV, parseFloatOrZero, parseFloat,
        fvalOr, fvalTruthy, sizeValOf, posLong0]

/-- The uniform close action the specification implies: breach check
and close order computed once, with no dependence on which rule named
the stop. -/
def book_profitUniform (cfg : Config) (placeRaises : Bool) (st : PTState)
    (pos : Position) (livePrice : ℚ) : BookResult :=
  let size := sizeOrZeroFV (sizeValOf pos)
  let r := update_trailing_stop cfg st pos livePrice
  match r.trailingStop with
  | none => ⟨r.state, none, false⟩
  | some trailingStop =>
    if 0 < size ∧ livePrice < trailingStop then
      ⟨r.state, some ⟨cfg.symbol, "sell", size, "ioc", true⟩, !placeRaises⟩
    else if size < 0 ∧ trailingStop < livePrice then
      ⟨r.state, some ⟨cfg.symbol, "buy", |size|, "ioc", true⟩, !placeRaises⟩
    else ⟨r.state, none, false⟩

/-- C10: the two rule branches of book_profit are behaviorally
identical: for every state, position and live price the function equals
the uniform version that computes the breach check and close order once,
so the rule name only labels which stop value was computed. -/
theorem C10_book_profit_rule_independent (cfg : Config) (placeRaises : Bool)
    (st : PTState) (pos : Position) (livePrice : ℚ) :
    book_profit cfg placeRaises st pos livePrice =
      book_profitUniform cfg placeRaises st pos livePrice := by
  unfold book_profit book_profitUniform
  cases h : (update_trailing_stop cfg st pos livePrice).trailingStop with
  | none => simp [h]
  | some ts =>
    by_cases hr : (update_trailing_stop cfg st pos livePrice).rule = some "lock_50" <;>
      simp [h, hr]

/- Embedding of TradeManager.place_market_order (trade_manager.py lines
74 to 177) together with the OrderManager side effects it triggers. -/

/-- Character-list test that the second list starts with the first. -/
def charsStartWith : List Char → List Char → Bool
  | [], _ => true
  | _ :: _, [] => false
  | a :: as, b :: bs => a == b && charsStartWith as bs

/-- Character-list substring test. -/
def charsContain (needle : List Char) : List Char → Bool
  | [] => charsStartWith needle []
  | c :: t => charsStartWith needle (c :: t) || charsContain needle t

/-- Models the Python method call s.startswith(pre). -/
def strStartsWith (s pre : String) : Bool := charsStartWith pre.toList s.toList

/-- Models the Python membership test needle in hay. -/
def strContains (hay needle : String) : Bool := charsContain needle.toList hay.toList

/-- ASCII lowercase of one character; the side strings the system uses
are ASCII. -/
def charLower (c : Char) : Char :=
  if 65 ≤ c.toNat ∧ c.toNat ≤ 90 then Char.ofNat (c.toNat + 32) else c

/-- Models the Python method call s.lower() on ASCII strings. -/
def strToLower (s : String) : String := ⟨s.data.map charLower⟩

/-- A venue position record as read by TradeManager: the two symbol
fields and the size value after the fallback size or contracts. -/
structure VenuePos where
  infoProductSymbol : Option String
  topSymbol : Option String
  sizeVal : FVal
deriving DecidableEq, Repr

/-- Symbol of a venue position: info.product_symbol or symbol or the
empty string (trade_manager.py lines 83 and 146). -/
def venuePosSymbol (v : VenuePos) : String :=
  strOr v.infoProductSymbol (strOr v.topSymbol "")

/-- A venue open-order record; only the side field is read. -/
structure VenueOrder where
  side : Option String
deriving DecidableEq, Repr

/-- Order parameters the executor reads or writes. -/
structure Params where
  timeInForce : Option String
  reduceOnlyFlag : Option Bool
deriving DecidableEq, Repr

/-- The normalized order record built at lines 128 to 136 and stored in
the local cache and the audit archive. -/
structure OrderInfo where
  id : String
  symbol : String
  side : String
  amount : ℚ
  params : Params
  status : String
  timestamp : ℤ
deriving DecidableEq, Repr

/-- Venue response to create_order; absent fields fall back to a fresh
uuid, the status open, and the current time. -/
structure CreateResp where
  id : Option String
  status : Option String
  timestamp : Option ℤ
deriving DecidableEq, Repr

/-- External responses one call observes.  A none on the first two
models a raised exception that the source catches and logs (the check
is skipped); a none on createResult or fetchAfterResult models a raised
exception that propagates to the caller. -/
structure TMEnv where
  fetchPositionsResult : Option (List VenuePos)
  fetchOpenOrdersResult : Option (List VenueOrder)
  createResult : Option CreateResp
  fetchAfterResult : Option (List VenuePos)
  uuid : String
  nowMs : ℤ
deriving DecidableEq, Repr

abbrev OrderCache := List (String × OrderInfo)

/-- Mutable state owned by the TradeManager call path: the local order
cache (order_manager.orders) and the audit archive list that
OrderManager store_order appends to. -/
structure TMState where
  orders : OrderCache
  audit : List OrderInfo
deriving DecidableEq, Repr

/-- Outcome of one call: the returned value, the final local state, and
how many times the order-placement primitive create_order was invoked. -/
structure PMOOut where
  result : Option OrderInfo
  tm : TMState
  createCalls : ℕ
deriving DecidableEq, Repr

/-- Safety check one (lines 80 to 95): some venue position for the
symbol already sits in the requested direction. -/
def samePositionHit (positions : List VenuePos) (symbol sideLower : String) : Bool :=
  positions.any fun pos =>
    strContains (venuePosSymbol pos) symbol &&
      ((sideLower == "buy" && decide (0 < sizeOrZeroFV pos.sizeVal)) ||
       (sideLower == "sell" && decide (sizeOrZeroFV pos.sizeVal < 0)))

def posCheckHit (r : Option (List VenuePos)) (symbol sideLower : String) : Bool :=
  match r with
  | some ps => samePositionHit ps symbol sideLower
  | none => false

/-- Safety check two (lines 99 to 106): some live open order has the
requested side. -/
def pendingOrderHit (orders : List VenueOrder) (sideLower : String) : Bool :=
  orders.any fun o => strToLower (o.side.getD "") == sideLower

def orderCheckHit (r : Option (List VenueOrder)) (sideLower : String) : Bool :=
  match r with
  | some os => pendingOrderHit os sideLower
  | none => false

/-- Stale-entry pruning (lines 109 to 112): entries older than 60000
milliseconds are deleted from the local cache. -/
def pruneStale (orders : OrderCache) (nowMs : ℤ) : OrderCache :=
  orders.filter fun e => decide (nowMs - e.2.timestamp ≤ 60000)

/-- Safety check three (lines 115 to 118): some locally cached order has
the requested side and an open or pending status. -/
def localPendingHit (orders : OrderCache) (sideLower : String) : Bool :=
  orders.any fun e =>
    strToLower e.2.side == sideLower &&
      (e.2.status == "open" || e.2.status == "pending")

/-- Forced-close verification (lines 145 to 149): the generator inside
any() tests startswith first and only then parses the size WITHOUT a
try/except, so an unparseable size raises (error) unless a hit occurs
earlier. -/
def stillOpenAfter : List VenuePos → String → Except Unit Bool
  | [], _ => .ok false
  | pos :: rest, symbol =>
    if strStartsWith (venuePosSymbol pos) symbol then
      match parseFloatOrZero pos.sizeVal with
      | none => .error ()
      | some q => if q ≠ 0 then .ok true else stillOpenAfter rest symbol
    else stillOpenAfter rest symbol

/-- Open-order verification (lines 155 to 171): size parsing here is
wrapped in try/except and falls back to zero. -/
def verifiedOpenAfter (l : List VenuePos) (symbol sideLower : String) : Bool :=
  l.any fun pos =>
    strStartsWith (venuePosSymbol pos) symbol &&
      ((sideLower == "buy" && decide (0 < sizeOrZeroFV pos.sizeVal)) ||
       (sideLower == "sell" && decide (sizeOrZeroFV pos.sizeVal < 0)))

/-- Execution phase (lines 125 to 177): create the order, append the
normalized record to the local cache and the audit archive, then verify
against a fresh position poll.  An error value carries the state at the
moment the exception propagates. -/
def executeMarket (env : TMEnv) (tm : TMState) (symbol side sideLower : String)
    (amount : ℚ) (params : Params) (force : Bool) : Except TMState PMOOut :=
  match env.createResult with
  | none => .error tm
  | some resp =>
    let orderId := resp.id.getD env.uuid
    let info : OrderInfo :=
      ⟨orderId, symbol, side, amount, params, resp.status.getD "open",
        resp.timestamp.getD env.nowMs⟩
    let tm1 : TMState := ⟨insertTbl tm.orders orderId info, tm.audit ++ [info]⟩
    match env.fetchAfterResult with
    | none => .error tm1
    | some after =>
      if force then
        match stillOpenAfter after symbol with
        | .error _ => .error tm1
        | .ok true => .ok ⟨none, tm1, 1⟩
        | .ok false => .ok ⟨some info, tm1, 1⟩
      else
        if verifiedOpenAfter after symbol sideLower then .ok ⟨some info, tm1, 1⟩
        else .ok ⟨none, tm1, 1⟩

/-- Embedding of TradeManager.place_market_order. -/
def place_market_order (env : TMEnv) (tm : TMState) (symbol side : String)
    (amount : ℚ) (params : Params) (force : Bool) : Except TMState PMOOut :=
  let sideLower := strToLower side
  if force then
    let params1 : Params := { params with reduceOnlyFlag := some (params.reduceOnlyFlag.getD true) }
    executeMarket env tm symbol side sideLower amount params1 true
  else
    if posCheckHit env.fetchPositionsResult symbol sideLower then .ok ⟨none, tm, 0⟩
    else if orderCheckHit env.fetchOpenOrdersResult sideLower then .ok ⟨none, tm, 0⟩
    else
      let tmP : TMState := ⟨pruneStale tm.orders env.nowMs, tm.audit⟩
      if localPendingHit tmP.orders sideLower then .ok ⟨none, tmP, 0⟩
      else executeMarket env tmP symbol side sideLower amount params false

theorem samePositionHit_of_mem {ps : List VenuePos} {symbol sideLower : String}
    {pos : VenuePos} (hmem : pos ∈ ps)
    (hsub : strContains (venuePosSymbol pos) symbol = true)
    (hdir : (sideLower = "buy" ∧ 0 < sizeOrZeroFV pos.sizeVal) ∨
      (sideLower = "sell" ∧ sizeOrZeroFV pos.sizeVal < 0)) :
    samePositionHit ps symbol sideLower = true := by
  unfold samePositionHit
  simp only [List.any_eq_true, Bool.and_eq_true, Bool.or_eq_true, beq_iff_eq,
    decide_eq_true_eq]
  exact ⟨pos, hmem, hsub, hdir⟩

theorem pendingOrderHit_of_mem {os : List VenueOrder} {sideLower : String}
    {o : VenueOrder} (hmem : o ∈ os)
    (hside : strToLower (o.side.getD "") = sideLower) :
    pendingOrderHit os sideLower = true := by
  unfold pendingOrderHit
  simp only [List.any_eq_true, beq_iff_eq]
  exact ⟨o, hmem, hside⟩

theorem localPendingHit_of_mem {orders : OrderCache} {sideLower : String}
    {e : String × OrderInfo} (hmem : e ∈ orders)
    (hside : strToLower e.2.side = sideLower)
    (hstat : e.2.status = "open" ∨ e.2.status = "pending") :
    localPendingHit orders sideLower = true := by
  unfold localPendingHit
  simp only [List.any_eq_true, Bool.and_eq_true, Bool.or_eq_true, beq_iff_eq]
  exact ⟨e, hmem, hside, hstat⟩

theorem mem_pruneStale_of_fresh {orders : OrderCache} {nowMs : ℤ}
    {e : String × OrderInfo} (hmem : e ∈ orders)
    (hfresh : nowMs - e.2.timestamp ≤ 60000) :
    e ∈ pruneStale orders nowMs := by
  unfold pruneStale
  exact List.mem_filter.mpr ⟨hmem, by simpa using hfresh⟩

/-- C4: a non-forced call short-circuits, returning absent with the
order-placement primitive never invoked, on any of the three safety
checks: a same-direction open venue position, a same-direction live
pending order, or a locally cached pending order younger than 60000
milliseconds after older local cache entries were pruned. -/
theorem C4_nonforced_short_circuit (env : TMEnv) (tm : TMState)
    (symbol side : String) (amount : ℚ) (params : Params) :
    (∀ ps pos, env.fetchPositionsResult = some ps → pos ∈ ps →
      strContains (venuePosSymbol pos) symbol = true →
      ((strToLower side = "buy" ∧ 0 < sizeOrZeroFV pos.sizeVal) ∨
       (strToLower side = "sell" ∧ sizeOrZeroFV pos.sizeVal < 0)) →
      place_market_order env tm symbol side amount params false = .ok ⟨none, tm, 0⟩) ∧
    (∀ os o, posCheckHit env.fetchPositionsResult symbol (strToLower side) = false →
      env.fetchOpenOrdersResult = some os → o ∈ os →
      strToLower (o.side.getD "") = strToLower side →
      place_market_order env tm symbol side amount params false = .ok ⟨none, tm, 0⟩) ∧
    (∀ e, posCheckHit env.fetchPositionsResult symbol (strToLower side) = false →
      orderCheckHit env.fetchOpenOrdersResult (strToLower side) = false →
      e ∈ tm.orders → env.nowMs - e.2.timestamp ≤ 60000 →
      strToLower e.2.side = strToLower side →
      (e.2.status = "open" ∨ e.2.status = "pending") →
      place_market_order env tm symbol side amount params false =
        .ok ⟨none, ⟨pruneStale tm.orders env.nowMs, tm.audit⟩, 0⟩) := by
  refine ⟨?_, ?_, ?_⟩
  · intro ps pos hps hmem hsub hdir
    have hhit : posCheckHit env.fetchPositionsResult symbol (strToLower side) = true := by
      unfold posCheckHit
      rw [hps]
      exact samePositionHit_of_mem hmem hsub hdir
    simp [place_market_order, hhit]
  · intro os o h1 hos hmem hside
    have hhit : orderCheckHit env.fetchOpenOrdersResult (strToLower side) = true := by
      unfold orderCheckHit
      rw [hos]
      exact pendingOrderHit_of_mem hmem hside
    simp [place_market_order, h1, hhit]
  · intro e h1 h2 hmem hfresh hside hstat
    have hhit : localPendingHit (pruneStale tm.orders env.nowMs) (strToLower side) = true :=
      localPendingHit_of_mem (mem_pruneStale_of_fresh hmem hfresh) hside hstat
    simp [place_market_order, h1, h2, hhit]

def tm0 : TMState := ⟨[], []⟩

def params0 : Params := ⟨some "ioc", none⟩

def envC4a : TMEnv :=
  ⟨some [⟨some "BTCUSD", none, .num 2⟩], none, none, none, "u1", 0⟩

def envC4b : TMEnv :=
  ⟨none, some [⟨some "Buy"⟩], none, none, "u1", 0⟩

def envC4c : TMEnv := ⟨none, none, none, none, "u1", 50000⟩

def infoC4 : OrderInfo := ⟨"o1", "BTCUSD", "buy", 1, params0, "open", 0⟩

def tmC4 : TMState := ⟨[("o1", infoC4)], []⟩

/-- Witness for C4: each of the three short-circuits at a concrete
input: an open long position while buying, a live pending buy order,
and a fresh locally cached open buy order. -/
theorem C4_witness :
    place_market_order envC4a tm0 "BTCUSD" "buy" 1 params0 false = .ok ⟨none, tm0, 0⟩ ∧
    place_market_order envC4b tm0 "BTCUSD" "buy" 1 params0 false = .ok ⟨none, tm0, 0⟩ ∧
    place_market_order envC4c tmC4 "BTCUSD" "buy" 1 params0 false =
      .ok ⟨none, ⟨pruneStale tmC4.orders envC4c.nowMs, tmC4.audit⟩, 0⟩ := by
  refine ⟨?_, ?_, ?_⟩
  · exact (C4_nonforced_short_circuit envC4a tm0 "BTCUSD" "buy" 1 params0).1
      [⟨some "BTCUSD", none, .num 2⟩] ⟨some "BTCUSD", none, .num 2⟩ rfl
      (by simp) (by decide) (Or.inl ⟨by decide, by decide⟩)
  · exact (C4_nonforced_short_circuit envC4b tm0 "BTCUSD" "buy" 1 params0).2.1
      [⟨some "Buy"⟩] ⟨some "Buy"⟩ (by decide) rfl (by simp) (by decide)
  · exact (C4_nonforced_short_circuit envC4c tmC4 "BTCUSD" "buy" 1 params0).2.2
      ("o1", infoC4) (by decide) (by decide) (by simp [tmC4]) (by decide)
      (by decide) (Or.inl (by decide))

/-- Combined system state: the trailing tables owned by ProfitTrailing
and the cache and audit list owned by the TradeManager call path.  The
source close path never references the trailing tables (they live on a
different object), so the embedding threads them through unchanged. -/
structure SysState where
  pt : PTState
  tm : TMState
deriving DecidableEq, Repr

def closePositionSys (env : TMEnv) (sys : SysState) (symbol side : String)
    (amount : ℚ) (params : Params) (force : Bool) :
    Except SysState (Option OrderInfo × SysState × ℕ) :=
  match place_market_order env sys.tm symbol side amount params force with
  | .error tm1 => .error ⟨sys.pt, tm1⟩
  | .ok out => .ok (out.result, ⟨sys.pt, out.tm⟩, out.createCalls)

/-- C5: a forced close whose post-order verification still finds a
nonzero-size position for the symbol returns absent, and the trailing
state tables are unchanged by the call. -/
theorem C5_forced_verification_failure_frame (env : TMEnv) (sys : SysState)
    (symbol side : String) (amount : ℚ) (params : Params)
    (resp : CreateResp) (after : List VenuePos)
    (hcreate : env.createResult = some resp)
    (hafter : env.fetchAfterResult = some after)
    (hopen : stillOpenAfter after symbol = .ok true) :
    ∃ sys1, closePositionSys env sys symbol side amount params true =
        .ok (none, sys1, 1) ∧ sys1.pt = sys.pt := by
  unfold closePositionSys place_market_order executeMarket
  rw [hcreate]
  dsimp only
  rw [hafter]
  dsimp only
  rw [hopen]
  exact ⟨_, rfl, rfl⟩

def envC5 : TMEnv :=
  ⟨none, none, some ⟨some "oid", some "open", some 100⟩,
    some [⟨some "BTCUSD", none, .num 3⟩], "u2", 0⟩

def sysC5 : SysState :=
  ⟨⟨[((some "BTCUSD", FVal.num 90, FVal.num 3), 7)],
    [((some "BTCUSD", FVal.num 90, FVal.num 3), 89)], true⟩, ⟨[], []⟩⟩

/-- Witness for C5 at a concrete forced close that fails verification:
the venue still reports size 3 for the symbol, and the nonempty
trailing tables pass through untouched. -/
theorem C5_witness :
    ∃ sys1, closePositionSys envC5 sysC5 "BTCUSD" "sell" 3 params0 true =
        .ok (none, sys1, 1) ∧ sys1.pt = sysC5.pt :=
  C5_forced_verification_failure_frame envC5 sysC5 "BTCUSD" "sell" 3 params0
    ⟨some "oid", some "open", some 100⟩ [⟨some "BTCUSD", none, .num 3⟩]
    rfl rfl rfl

theorem executeMarket_appends (env : TMEnv) (tm : TMState)
    (symbol side sideLower : String) (amount : ℚ) (params : Params) (force : Bool) :
    (∀ out, executeMarket env tm symbol side sideLower amount params force = .ok out →
      ∃ info, out.tm.audit = tm.audit ++ [info] ∧
        lookupTbl out.tm.orders info.id = some info ∧ out.createCalls = 1) ∧
    (∀ resp etm, env.createResult = some resp →
      executeMarket env tm symbol side sideLower amount params force = .error etm →
      ∃ info, etm.audit = tm.audit ++ [info] ∧
        lookupTbl etm.orders info.id = some info) := by
  constructor
  · intro out hok
    unfold executeMarket at hok
    cases hc : env.createResult with
    | none =>
      rw [hc] at hok
      exact absurd hok (by simp)
    | some resp =>
      rw [hc] at hok
      dsimp only at hok
      refine ⟨⟨resp.id.getD env.uuid, symbol, side, amount, params,
        resp.status.getD "open", resp.timestamp.getD env.nowMs⟩, ?_⟩
      cases ha : env.fetchAfterResult with
      | none =>
        rw [ha] at hok
        exact absurd hok (by simp)
      | some after =>
        rw [ha] at hok
        dsimp only at hok
        by_cases hf : force
        · rw [if_pos hf] at hok
          cases hso : stillOpenAfter after symbol with
          | error u =>
            rw [hso] at hok
            exact absurd hok (by simp)
          | ok b =>
            rw [hso] at hok
            cases b with
            | true =>
              simp only [Except.ok.injEq] at hok
              subst hok
              exact ⟨rfl, lookupTbl_insertTbl_self _ _ _, rfl⟩
            | false =>
              simp only [Except.ok.injEq] at hok
              subst hok
              exact ⟨rfl, lookupTbl_insertTbl_self _ _ _, rfl⟩
        · rw [if_neg hf] at hok
          by_cases hv : verifiedOpenAfter after symbol sideLower = true
          · rw [if_pos hv] at hok
            simp only [Except.ok.injEq] at hok
            subst hok
            exact ⟨rfl, lookupTbl_insertTbl_self _ _ _, rfl⟩
          · rw [if_neg hv] at hok
            simp only [Except.ok.injEq] at hok
            subst hok
            exact ⟨rfl, lookupTbl_insertTbl_self _ _ _, rfl⟩
  · intro resp etm hc herr
    unfold executeMarket at herr
    rw [hc] at herr
    dsimp only at herr
    refine ⟨⟨resp.id.getD env.uuid, symbol, side, amount, params,
      resp.status.getD "open", resp.timestamp.getD env.nowMs⟩, ?_⟩
    cases ha : env.fetchAfterResult with
    | none =>
      rw [ha] at herr
      simp only [Except.error.injEq] at herr
      subst herr
      exact ⟨rfl, lookupTbl_insertTbl_self _ _ _⟩
    | some after =>
      rw [ha] at herr
      dsimp only at herr
      by_cases hf : force
      · rw [if_pos hf] at herr
        cases hso : stillOpenAfter after symbol with
        | error u =>
          rw [hso] at herr
          simp only [Except.error.injEq] at herr
          subst herr
          exact ⟨rfl, lookupTbl_insertTbl_self _ _ _⟩
        | ok b =>
          rw [hso] at herr
          cases b with
          | true => exact absurd herr (by simp)
          | false => exact absurd herr (by simp)
      · rw [if_neg hf] at herr
        by_cases hv : verifiedOpenAfter after symbol sideLower = true
        · rw [if_pos hv] at herr
          exact absurd herr (by simp)
        · rw [if_neg hv] at herr
          exact absurd herr (by simp)

/-- C7: whenever a call proceeds to execution (the placement primitive
is invoked and returns), the normalized record has been appended to the
audit archive and stored in the local cache, whether the call returns a
value or absent; and when an exception propagates after placement (for
example the verification poll raising), the state carried out still
holds the appended record. -/
theorem C7_audit_before_verification (env : TMEnv) (tm : TMState)
    (symbol side : String) (amount : ℚ) (params : Params) (force : Bool) :
    (∀ out, place_market_order env tm symbol side amount params force = .ok out →
      1 ≤ out.createCalls →
      ∃ info, out.tm.audit = tm.audit ++ [info] ∧
        lookupTbl out.tm.orders info.id = some info) ∧
    (∀ resp etm, env.createResult = some resp →
      place_market_order env tm symbol side amount params force = .error etm →
      ∃ info, etm.audit = tm.audit ++ [info] ∧
        lookupTbl etm.orders info.id = some info) := by
  constructor
  · intro out hok hcalls
    unfold place_market_order at hok
    by_cases hf : force
    · rw [if_pos hf] at hok
      obtain ⟨info, h1, h2, _⟩ := (executeMarket_appends env tm symbol side
        (strToLower side) amount _ true).1 out hok
      exact ⟨info, h1, h2⟩
    · rw [if_neg hf] at hok
      by_cases hp : posCheckHit env.fetchPositionsResult symbol (strToLower side) = true
      · rw [if_pos hp] at hok
        simp only [Except.ok.injEq] at hok
        subst hok
        simp at hcalls
      · rw [if_neg hp] at hok
        by_cases ho : orderCheckHit env.fetchOpenOrdersResult (strToLower side) = true
        · rw [if_pos ho] at hok
          simp only [Except.ok.injEq] at hok
          subst hok
          simp at hcalls
        · rw [if_neg ho] at hok
          dsimp only at hok
          by_cases hl : localPendingHit (pruneStale tm.orders env.nowMs)
              (strToLower side) = true
          · rw [if_pos hl] at hok
            simp only [Except.ok.injEq] at hok
            subst hok
            simp at hcalls
          · rw [if_neg hl] at hok
            obtain ⟨info, h1, h2, _⟩ := (executeMarket_appends env
              ⟨pruneStale tm.orders env.nowMs, tm.audit⟩ symbol side
              (strToLower side) amount params false).1 out hok
            exact ⟨info, h1, h2⟩
  · intro resp etm hc herr
    unfold place_market_order at herr
    by_cases hf : force
    · rw [if_pos hf] at herr
      exact (executeMarket_appends env tm symbol side
        (strToLower side) amount _ true).2 resp etm hc herr
    · rw [if_neg hf] at herr
      by_cases hp : posCheckHit env.fetchPositionsResult symbol (strToLower side) = true
      · rw [if_pos hp] at herr
        exact absurd herr (by simp)
      · rw [if_neg hp] at herr
        by_cases ho : orderCheckHit env.fetchOpenOrdersResult (strToLower side) = true
        · rw [if_pos ho] at herr
          exact absurd herr (by simp)
        · rw [if_neg ho] at herr
          dsimp only at herr
          by_cases hl : localPendingHit (pruneStale tm.orders env.nowMs)
              (strToLower side) = true
          · rw [if_pos hl] at herr
            exact absurd herr (by simp)
          · rw [if_neg hl] at herr
            exact (executeMarket_appends env
              ⟨pruneStale tm.orders env.nowMs, tm.audit⟩ symbol side
              (strToLower side) amount params false).2 resp etm hc herr

def envC7 : TMEnv :=
  ⟨none, none, some ⟨some "oid", some "open", some 100⟩, some [], "u3", 0⟩

def infoC7 : OrderInfo :=
  ⟨"oid", "BTCUSD", "sell", 1, ⟨some "ioc", some true⟩, "open", 100⟩

def pmoOutC7 : PMOOut := ⟨some infoC7, ⟨[("oid", infoC7)], [infoC7]⟩, 1⟩

/-- Witness for C7 at a concrete forced close: after the call the audit
archive holds exactly the appended normalized record and the local
cache maps its id to it. -/
theorem C7_witness :
    ∃ info, pmoOutC7.tm.audit = tm0.audit ++ [info] ∧
      lookupTbl pmoOutC7.tm.orders info.id = some info :=
  (C7_audit_before_verification envC7 tm0 "BTCUSD" "sell" 1 params0 true).1
    pmoOutC7 rfl (by decide)

/- Embedding of the track loop (profit_trailing.py lines 175 to 281). -/

/-- Embedding of ProfitTrailing.compute_profit_pct (lines 48 to 62). -/
def compute_profit_pct (pos : Position) (livePrice : ℚ) : Option ℚ :=
  match parseFloat (entryValOf pos) with
  | none => none
  | some entry =>
    let size := sizeOrZeroFV (sizeValOf pos)
    if 0 < size then some ((livePrice - entry) / entry)
    else some ((entry - livePrice) / entry)

/-- Embedding of ProfitTrailing.compute_raw_profit (lines 64 to 78). -/
def compute_raw_profit (pos : Position) (livePrice : ℚ) : Option ℚ :=
  match parseFloat (entryValOf pos) with
  | none => none
  | some entry =>
    let size := sizeOrZeroFV (sizeValOf pos)
    if 0 < size then some ((livePrice - entry) * size)
    else some ((entry - livePrice) * |size|)

/-- Models round(x, 2) on rationals (round half up; the claims checked
here never depend on tie behavior). -/
def round2 (q : ℚ) : ℚ := (⌊q * 100 + 1 / 2⌋ : ℤ) / 100

/-- Lines 239 to 246: the pair (api_pnl, api_entry), both falling back
to zero together when either float call raises. -/
def apiPair (p : Position) : ℚ × ℚ :=
  match parseFloatOrZero p.infoUnrealizedPnl, parseFloatOrZero p.infoEntryPrice with
  | some a, some b => (a, b)
  | _, _ => (0, 0)

/-- The display dictionary built at lines 252 to 264, used for
log debouncing via equality with the previous snapshot. -/
structure DisplayRec where
  entry : Option ℚ
  apiEntry : ℚ
  live : ℚ
  profitPct : ℚ
  profitUsd : ℚ
  apiPnl : ℚ
  rule : Option String
  sl : ℚ
  size : ℚ
  side : String
  maxProfit : ℚ
deriving DecidableEq, Repr

/-- State the track loop mutates: the engine tables and the per-key
last-display cache. -/
structure TrackState where
  pt : PTState
  lastDisplay : List (Key × DisplayRec)
deriving DecidableEq, Repr

/-- Processing of one cached position inside the track loop (lines 212
to 279).  An error models the TypeError the log f-string raises when it
formats entry_num or trailing_stop while one of them is None (lines 267
to 272); that exception is not caught inside track.  Note book_profit
runs its own update call on the already-updated state. -/
def trackPosStep (cfg : Config) (placeRaises : Bool) (livePrice : ℚ)
    (st : TrackState) (p : Position) : Except Unit TrackState :=
  let entryNum := parseFloat (entryValOf p)
  let size := sizeOrZeroFV (sizeValOf p)
  if size = 0 then .ok st
  else
    let profitDisplay := ((compute_profit_pct p livePrice).getD 0) * 100
    let profitUsd := ((compute_raw_profit p livePrice).getD 0) / 1000
    let r := update_trailing_stop cfg st.pt p livePrice
    let maxProfit := (lookupTbl r.state.positionMaxProfit (trackKey p)).getD 0
    let ap := apiPair p
    let display : DisplayRec :=
      ⟨entryNum, round2 ap.2, livePrice, round2 profitDisplay, round2 profitUsd,
        round2 ap.1, r.rule, round2 (r.trailingStop.getD 0), size,
        if 0 < size then "long" else "short", round2 maxProfit⟩
    let st1 : TrackState := ⟨r.state, st.lastDisplay⟩
    if lookupTbl st1.lastDisplay (trackKey p) ≠ some display then
      if entryNum = none ∨ r.trailingStop = none then .error ()
      else
        let st2 : TrackState := ⟨st1.pt, insertTbl st1.lastDisplay (trackKey p) display⟩
        let b := book_profit cfg placeRaises st2.pt p livePrice
        .ok ⟨b.state, st2.lastDisplay⟩
    else
      let b := book_profit cfg placeRaises st1.pt p livePrice
      .ok ⟨b.state, st1.lastDisplay⟩

/-- One fetch iteration of ProfitTrailing.track (lines 189 to 281): when
the fresh poll result is empty, both trailing tables are cleared in full
and the cycle is skipped; otherwise every polled position is processed
in order.  An error models an exception escaping the loop body. -/
def trackCycle (cfg : Config) (placeRaises : Bool) (st : TrackState)
    (polled : List Position) (livePrice : ℚ) : Except Unit TrackState :=
  if polled = [] then
    .ok ⟨⟨[], [], st.pt.takeProfitDetected⟩, st.lastDisplay⟩
  else
    polled.foldlM (fun s p => trackPosStep cfg placeRaises livePrice s p) st

theorem book_profit_state_eq (cfg : Config) (placeRaises : Bool) (st : PTState)
    (pos : Position) (livePrice : ℚ) :
    (book_profit cfg placeRaises st pos livePrice).state =
      (update_trailing_stop cfg st pos livePrice).state := by
  unfold book_profit
  cases h : (update_trailing_stop cfg st pos livePrice).trailingStop with
  | none => simp [h]
  | some ts =>
    by_cases hr : (update_trailing_stop cfg st pos livePrice).rule = some "lock_50" <;>
      simp [h, hr] <;> split_ifs <;> rfl

/-- An update never touches the max-profit entry of a different key. -/
theorem update_maxProfit_preserves (cfg : Config) (st : PTState) (pos : Position)
    (livePrice : ℚ) (k : Key) (hk : k ≠ posKey pos) :
    lookupTbl (update_trailing_stop cfg st pos livePrice).state.positionMaxProfit k =
      lookupTbl st.positionMaxProfit k := by
  unfold update_trailing_stop
  cases hp : parseFloat (entryValOf pos) with
  | none => rfl
  | some entry =>
    by_cases hs : sizeOrZeroFV (sizeValOf pos) = 0
    · simp [hs]
    · simp only [hs, if_false]
      exact lookupTbl_insertTbl_ne _ _ _ _ fun h => hk h.symm

/-- Every successful step either skipped the position (zero size) or
ended in the state book_profit produced from the once-updated tables. -/
theorem trackPosStep_pt (cfg : Config) (placeRaises : Bool) (livePrice : ℚ)
    (st : TrackState) (p : Position) (st' : TrackState)
    (hok : trackPosStep cfg placeRaises livePrice st p = .ok st') :
    st'.pt = st.pt ∨ st'.pt =
      (book_profit cfg placeRaises (update_trailing_stop cfg st.pt p livePrice).state
        p livePrice).state := by
  unfold trackPosStep at hok
  dsimp only at hok
  by_cases hs : sizeOrZeroFV (sizeValOf p) = 0
  · rw [if_pos hs] at hok
    injection hok with h
    subst h
    exact Or.inl rfl
  · rw [if_neg hs] at hok
    by_cases hside : 0 < sizeOrZeroFV (sizeValOf p)
    · rw [if_pos hside] at hok
      split at hok
      · split at hok
        · exact Except.noConfusion hok
        · injection hok with h
          subst h
          exact Or.inr rfl
      · injection hok with h
        subst h
        exact Or.inr rfl
    · rw [if_neg hside] at hok
      split at hok
      · split at hok
        · exact Except.noConfusion hok
        · injection hok with h
          subst h
          exact Or.inr rfl
      · injection hok with h
        subst h
        exact Or.inr rfl

/-- Processing one position leaves the max-profit entries of all other
keys untouched. -/
theorem trackPosStep_preserves (cfg : Config) (placeRaises : Bool) (livePrice : ℚ)
    (st : TrackState) (p : Position) (k : Key) (hk : k ≠ posKey p)
    (st' : TrackState)
    (hok : trackPosStep cfg placeRaises livePrice st p = .ok st') :
    lookupTbl st'.pt.positionMaxProfit k = lookupTbl st.pt.positionMaxProfit k := by
  rcases trackPosStep_pt cfg placeRaises livePrice st p st' hok with h | h
  · rw [h]
  · rw [h, book_profit_state_eq, update_maxProfit_preserves cfg _ p livePrice k hk,
      update_maxProfit_preserves cfg _ p livePrice k hk]

/-- Processing a position with a parseable entry never raises. -/
theorem trackPosStep_ok_of_entry_some (cfg : Config) (placeRaises : Bool)
    (livePrice : ℚ) (st : TrackState) (p : Position) (entry : ℚ)
    (hentry : parseFloat (entryValOf p) = some entry) :
    ∃ st', trackPosStep cfg placeRaises livePrice st p = .ok st' := by
  unfold trackPosStep
  dsimp only
  by_cases hs : sizeOrZeroFV (sizeValOf p) = 0
  · rw [if_pos hs]
    exact ⟨st, rfl⟩
  · rw [if_neg hs]
    have hts : (update_trailing_stop cfg st.pt p livePrice).trailingStop =
        some (ruleChoice cfg st.pt.takeProfitDetected entry (sizeOrZeroFV (sizeValOf p))
          (newMaxOf st.pt p livePrice entry)).1 := by
      rw [update_trailing_stop_eq cfg st.pt p livePrice entry hentry hs]
    have hcond : ¬ (parseFloat (entryValOf p) = none ∨
        (update_trailing_stop cfg st.pt p livePrice).trailingStop = none) := by
      rw [hentry, hts]
      simp
    rw [if_neg hcond]
    by_cases hside : 0 < sizeOrZeroFV (sizeValOf p)
    · rw [if_pos hside]
      split
      · exact ⟨_, rfl⟩
      · exact ⟨_, rfl⟩
    · rw [if_neg hside]
      split
      · exact ⟨_, rfl⟩
      · exact ⟨_, rfl⟩

def posC6 : Position := ⟨some "BTCUSD", none, .num 100, .missing, .num 1, .missing, .num 0⟩

def keyOld : Key := (some "BTCUSD", FVal.num 90, FVal.num 2)

def stC6 : TrackState := ⟨⟨[(keyOld, 5)], [], false⟩, []⟩

/-- Counterexample to C6: a poll that still contains one open position
(identity posC6) does NOT delete the state of the vanished identity
keyOld; the stale entry of 5 survives the cycle.  The source clears the
tables only when a poll comes back entirely empty. -/
theorem C6_counterexample :
    posKey posC6 ≠ keyOld ∧ trackKey posC6 ≠ keyOld ∧
    ∃ st', trackCycle cfg0 false stC6 [posC6] 100 = .ok st' ∧
      lookupTbl st'.pt.positionMaxProfit keyOld = some 5 := by
  obtain ⟨st', hok⟩ :=
    trackPosStep_ok_of_entry_some cfg0 false 100 stC6 posC6 100 (by decide)
  refine ⟨by decide, by decide, st', ?_, ?_⟩
  · unfold trackCycle
    rw [if_neg (by simp)]
    show trackPosStep cfg0 false 100 stC6 posC6 >>= _ = .ok st'
    rw [hok]
    rfl
  · rw [trackPosStep_preserves cfg0 false 100 stC6 posC6 keyOld (by decide) st' hok]
    decide

/-- C6 amended: the per-identity state is purged only when a poll
returns no open positions at all, in which case both tables are cleared
wholesale; and a previously unseen identity always starts its excursion
from zero, because a missing table entry reads as zero. -/
theorem C6_amended_clear_on_empty_poll (cfg : Config) (placeRaises : Bool)
    (st : TrackState) (livePrice : ℚ) (pos : Position) (entry : ℚ) (stp : PTState)
    (hnew : lookupTbl stp.positionMaxProfit (posKey pos) = none)
    (hentry : parseFloat (entryValOf pos) = some entry)
    (hsize : sizeOrZeroFV (sizeValOf pos) ≠ 0) :
    trackCycle cfg placeRaises st [] livePrice =
      .ok ⟨⟨[], [], st.pt.takeProfitDetected⟩, st.lastDisplay⟩ ∧
    lookupTbl (update_trailing_stop cfg stp pos livePrice).state.positionMaxProfit
        (posKey pos) =
      some (max 0 (signedProfit entry (sizeOrZeroFV (sizeValOf pos)) livePrice)) := by
  constructor
  · unfold trackCycle
    rw [if_pos rfl]
  · rw [update_maxProfit_stores cfg stp pos livePrice entry hentry hsize, hnew]
    rfl

/-- Witness for the amended C6: an empty poll clears the nonempty
tables of stC6, and the fresh identity posC6 starts from zero. -/
theorem C6_witness :
    trackCycle cfg0 false stC6 [] 100 =
      .ok ⟨⟨[], [], stC6.pt.takeProfitDetected⟩, stC6.lastDisplay⟩ ∧
    lookupTbl (update_trailing_stop cfg0 stEmpty posC6 100).state.positionMaxProfit
        (posKey posC6) =
      some (max 0 (signedProfit 100 (sizeOrZeroFV (sizeValOf posC6)) 100)) :=
  C6_amended_clear_on_empty_poll cfg0 false stC6 100 posC6 100 stEmpty
    (by decide) (by decide) (by decide)

def posBadEntry : Position :=
  ⟨some "BTCUSD", none, .str "oops", .missing, .num 2, .missing, .missing⟩

def posZeroSize : Position :=
  ⟨some "BTCUSD", none, .num 100, .missing, .num 0, .missing, .missing⟩

/-- C9 at concrete inputs: a zero-size position yields the absent triple
with untouched state and the loop skips it; an unparseable entry also
yields the absent triple, but the loop then RAISES (models the TypeError
from formatting None in the log f-string) instead of skipping the
position, contradicting the second half of the claim. -/
theorem C9_code_eval :
    update_trailing_stop cfg0 stEmpty posZeroSize 100 = ⟨stEmpty, none, none, none⟩ ∧
    trackPosStep cfg0 false 100 ⟨stEmpty, []⟩ posZeroSize = .ok ⟨stEmpty, []⟩ ∧
    update_trailing_stop cfg0 stEmpty posBadEntry 100 = ⟨stEmpty, none, none, none⟩ ∧
    trackPosStep cfg0 false 100 ⟨stEmpty, []⟩ posBadEntry = .error () :=
  ⟨by decide, rfl, by decide, rfl⟩

/- Discrete-time model of the price-feed watchdog,
BinanceWebsocket monitor_connection (binance_ws.py lines 72 to 89).
The watchdog wakes every 3 time units (poll n wakes at time 3 * (n+1))
and attempts a reconnect exactly when now minus last_update_time
exceeds the reconnect interval.  Reconnecting does NOT write
last_update_time — only an inbound message does (lines 26 to 28) — so
under continued silence lastUpdate stays fixed across polls. -/

/-- Wake time of watchdog poll n. -/
def pollTime (n : ℕ) : ℕ := 3 * (n + 1)

/-- Whether watchdog poll n attempts a reconnect, with lastUpdate fixed
(continued silence). -/
def reconnectAtPoll (threshold lastUpdate n : ℕ) : Bool :=
  decide (lastUpdate + threshold < pollTime n)

/-- Number of reconnect attempts among the first N polls that fall
within threshold + 3 time units of the last update. -/
def attemptsInWindow (threshold lastUpdate N : ℕ) : ℕ :=
  ((List.range N).filter fun n =>
    reconnectAtPoll threshold lastUpdate n && decide (pollTime n ≤ lastUpdate + threshold + 3)).length

theorem filter_range_eq_singleton (N a : ℕ) (ha : a < N) :
    (List.range N).filter (fun n => decide (n = a)) = [a] := by
  induction N with
  | zero => omega
  | succ N ih =>
    rw [List.range_succ, List.filter_append]
    by_cases h : a < N
    · rw [ih h]
      have : ¬ (N = a) := by omega
      simp [this]
    · have ha2 : a = N := by omega
      subst ha2
      have h0 : (List.range a).filter (fun n => decide (n = a)) = [] := by
        rw [List.filter_eq_nil_iff]
        intro n hn
        simp only [List.mem_range] at hn
        simp only [decide_eq_true_eq]
        omega
      simp [h0]

/-- C8 amended: with continued silence, exactly one reconnect attempt
falls within threshold + 3 time units of the last update; but every
poll strictly past the threshold attempts a reconnect, and so does the
next poll 3 time units later — the retries recur at watchdog-poll
granularity, not at the threshold period, because reconnection never
resets the last-update time. -/
theorem C8_watchdog_reconnect (threshold lastUpdate N : ℕ)
    (hN : lastUpdate + threshold + 3 ≤ 3 * N) :
    attemptsInWindow threshold lastUpdate N = 1 ∧
    (∀ n, lastUpdate + threshold < pollTime n →
      reconnectAtPoll threshold lastUpdate n = true ∧
      reconnectAtPoll threshold lastUpdate (n + 1) = true) := by
  constructor
  · unfold attemptsInWindow
    have hcong : ∀ n ∈ List.range N,
        (reconnectAtPoll threshold lastUpdate n &&
          decide (pollTime n ≤ lastUpdate + threshold + 3)) =
        decide (n = (lastUpdate + threshold) / 3) := by
      intro n _
      unfold reconnectAtPoll pollTime
      by_cases h : n = (lastUpdate + threshold) / 3
      · have h1 : lastUpdate + threshold < 3 * (n + 1) := by omega
        have h2 : 3 * (n + 1) ≤ lastUpdate + threshold + 3 := by omega
        rw [decide_eq_true h1, decide_eq_true h2, decide_eq_true h]
        rfl
      · have h3 : ¬ (lastUpdate + threshold < 3 * (n + 1)) ∨
            ¬ (3 * (n + 1) ≤ lastUpdate + threshold + 3) := by omega
        rcases h3 with h3 | h3
        · simp [h, h3]
        · simp [h, h3]
    rw [List.filter_congr hcong,
      filter_range_eq_singleton N ((lastUpdate + threshold) / 3) (by omega)]
    rfl
  · intro n h
    unfold reconnectAtPoll pollTime at *
    refine ⟨by simp only [decide_eq_true_eq]; omega,
      by simp only [decide_eq_true_eq]; omega⟩

/-- Counterexample to C8 as stated: with the default threshold 10 and
silence since time 0, polls 3, 4 and 5 (times 12, 15 and 18) ALL
attempt a reconnect — consecutive retries 3 time units apart, not
rate-limited to roughly the threshold period. -/
theorem C8_counterexample :
    reconnectAtPoll 10 0 3 = true ∧ reconnectAtPoll 10 0 4 = true ∧
    reconnectAtPoll 10 0 5 = true ∧
    pollTime 4 - pollTime 3 = 3 ∧ pollTime 4 - pollTime 3 < 10 := by
  refine ⟨by decide, by decide, by decide, by decide, by decide⟩

/-- Witness for the amended C8 at threshold 10, last update at 0, five
polls: exactly one attempt in the 13-unit window, and polls 3 and 4
both attempt. -/
theorem C8_witness :
    attemptsInWindow 10 0 5 = 1 ∧
    reconnectAtPoll 10 0 3 = true ∧ reconnectAtPoll 10 0 4 = true :=
  ⟨(C8_watchdog_reconnect 10 0 5 (by norm_num)).1,
   ((C8_watchdog_reconnect 10 0 5 (by norm_num)).2 3 (by decide)).1,
   ((C8_watchdog_reconnect 10 0 5 (by norm_num)).2 3 (by decide)).2⟩

end Trading
